import Mathlib

/-!
Formal model of the MONIK monitoring service core (Go sources under
backend/internal), shallowly embedded in Lean 4.

Conventions of the embedding:
* Go `uint64` byte counters are modelled as `Nat`.  Every subtraction the
  source performs on them is guarded by the corresponding `<`/`>=` test, so
  truncated `Nat` subtraction coincides with the Go result; the additions
  accumulate real byte counts far below `2^64`, and no code path relies on
  wrap-around of an addition.
* Go `float64` rate fields are carried as `ℚ`; the modelled code only ever
  stores them or sets them to `0`, never computes with them.
* Database tables are association lists; gorm `First`/`Find`/`Updates` with
  a `WHERE` clause become `List.find?` / `List.filter` / first-match
  replacement on those lists.
* Wall-clock instants are `Nat` (nanoseconds); the calendar day used as the
  quota key is passed explicitly as `(day, month, year) : Int`.
-/

namespace Monik

/-- Interface sample as produced by the router client
(`InterfaceData` in backend/internal/service/mikrotik.go). -/
structure InterfaceData where
  name : String
  rxBytes : Nat
  txBytes : Nat
  rxRate : ℚ
  txRate : ℚ
  status : String
  comment : String
deriving Repr, DecidableEq

/-- Persistent per-interface row (`models.Interface`): last-known cumulative
counters, rates and last-seen instant, keyed by `interfaceName`. -/
structure InterfaceRow where
  interfaceName : String
  rxBytes : Nat
  txBytes : Nat
  rxRate : ℚ
  txRate : ℚ
  lastSeen : Nat
deriving Repr, DecidableEq

/-- Append-only reset log entry (`models.CounterResetLog`). -/
structure CounterResetLog where
  interfaceName : String
  resetTime : Nat
  previousBytes : Nat
  newBytes : Nat
  detectionMethod : String
deriving Repr, DecidableEq

/-- Per-day usage accumulation row (`models.MonthlyQuota` as used by
`updateMonthlyQuota` in backend/internal/service/service.go): unique key
`(interfaceName, day, month, year)`, accumulators plus the cached baselines
`lastRxBytes`/`lastTxBytes`. -/
structure MonthlyQuota where
  interfaceName : String
  day : Int
  month : Int
  year : Int
  rxBytes : Nat
  txBytes : Nat
  totalBytes : Nat
  totalRx : Nat
  totalTx : Nat
  lastRxBytes : Nat
  lastTxBytes : Nat
deriving Repr, DecidableEq

/-- Helper `CalculateDelta` from backend/internal/service/helpers.go:
reset-safe delta between the current and previous cumulative counter. -/
def CalculateDelta (current previous : Nat) (isReset : Bool) : Nat :=
  if isReset ∨ current < previous then current else current - previous

/-- Row freshly inserted by `updateMonthlyQuota` when no `(name, d, m, y)`
row exists (service.go, the `gorm.ErrRecordNotFound` branch): accumulators
zero, baselines seeded with the observed counters. -/
def newQuota (iface : InterfaceData) (d m y : Int) : MonthlyQuota :=
  { interfaceName := iface.name
    day := d
    month := m
    year := y
    rxBytes := 0
    txBytes := 0
    totalBytes := 0
    totalRx := 0
    totalTx := 0
    lastRxBytes := iface.rxBytes
    lastTxBytes := iface.txBytes }

/-- Core of `updateMonthlyQuota` on an existing row (service.go lines
534-571): the delta computation with the reset branch, the nested
normal-branch validation and the protection branch, followed by the
accumulator update and baseline refresh. -/
def updateQuotaRow (q : MonthlyQuota) (curRx curTx : Nat) (isReset : Bool) :
    MonthlyQuota :=
  let d : Nat × Nat :=
    if isReset ∨ curRx < q.lastRxBytes then
      (curRx, curTx)
    else
      if q.lastRxBytes ≤ curRx ∧ q.lastTxBytes ≤ curTx then
        (curRx - q.lastRxBytes, curTx - q.lastTxBytes)
      else
        (curRx, curTx)
  { q with
    rxBytes := q.rxBytes + d.1
    txBytes := q.txBytes + d.2
    totalBytes := (q.rxBytes + d.1) + (q.txBytes + d.2)
    totalRx := q.totalRx + d.1
    totalTx := q.totalTx + d.2
    lastRxBytes := curRx
    lastTxBytes := curTx }

/-- Boolean key match used by the quota queries. -/
def quotaKeyMatch (q : MonthlyQuota) (name : String) (d m y : Int) : Bool :=
  q.interfaceName == name && q.day == d && q.month == m && q.year == y

/-- Lookup of the quota row for `(name, d, m, y)`
(the `First` query in `updateMonthlyQuota`). -/
def quotaLookup (qs : List MonthlyQuota) (name : String) (d m y : Int) :
    Option MonthlyQuota :=
  qs.find? (fun q => quotaKeyMatch q name d m y)

/-- Replacement of the first row matching the key by a new value (the gorm
`Model(&quota).Updates(...)` write-back of the fetched row). -/
def quotaReplaceFirst (qs : List MonthlyQuota) (name : String) (d m y : Int)
    (r : MonthlyQuota) : List MonthlyQuota :=
  match qs with
  | [] => []
  | q :: rest =>
      if quotaKeyMatch q name d m y then r :: rest
      else q :: quotaReplaceFirst rest name d m y r

/-- Store-level `updateMonthlyQuota` (service.go lines 483-578): look up the
day row for the sample, create a zero-delta row when absent, otherwise apply
the delta update to the fetched row. -/
def updateMonthlyQuota (qs : List MonthlyQuota) (iface : InterfaceData)
    (isReset : Bool) (d m y : Int) : List MonthlyQuota :=
  match quotaLookup qs iface.name d m y with
  | none => qs ++ [newQuota iface d m y]
  | some q =>
      quotaReplaceFirst qs iface.name d m y
        (updateQuotaRow q iface.rxBytes iface.txBytes isReset)

/-- WAN decision record (`WANInterface` in
backend/internal/database/database.go). -/
structure WANInterface where
  name : String
  method : String
  confidence : ℚ
  lastUpdated : Nat
  traffic : Nat
  ispName : String
deriving Repr, DecidableEq

/-- Detection-method constant from database.go. -/
def DetectionMethodRoute : String := "default_route"

/-- Detection-method constant from database.go. -/
def DetectionMethodTraffic : String := "traffic_analysis"

/-- Detection-method constant from database.go. -/
def DetectionMethodPattern : String := "name_pattern"

/-- Model of the Go `scores[name] += v` map update in `detectByHybrid`: an
absent key reads as `0` before the addition.  The map is an association
list in insertion order; the Go iteration order over the map is arbitrary,
but the three possible confidence values have pairwise-distinct non-empty
subset sums, so no two candidates ever tie and the argmax below does not
depend on the order. -/
def scoreAdd (scores : List (String × ℚ)) (name : String) (v : ℚ) :
    List (String × ℚ) :=
  if scores.any (fun p => p.1 == name) then
    scores.map (fun p => if p.1 == name then (p.1, p.2 + v) else p)
  else scores ++ [(name, v)]

/-- Model of the unconditional `interfaces[name] = w` map write. -/
def ifaceSet (m : List (String × WANInterface)) (name : String)
    (w : WANInterface) : List (String × WANInterface) :=
  if m.any (fun p => p.1 == name) then
    m.map (fun p => if p.1 == name then (p.1, w) else p)
  else m ++ [(name, w)]

/-- Model of the guarded `if _, exists := interfaces[name]; !exists` map
write used for the traffic and pattern candidates. -/
def ifaceAdd (m : List (String × WANInterface)) (name : String)
    (w : WANInterface) : List (String × WANInterface) :=
  if m.any (fun p => p.1 == name) then m else m ++ [(name, w)]

/-- Map read of the candidate table. -/
def lookupIface (m : List (String × WANInterface)) (name : String) :
    Option WANInterface :=
  (m.find? (fun p => p.1 == name)).map (fun p => p.2)

/-- Map read of the score table (absent key reads `0`). -/
def scoreLookup (scores : List (String × ℚ)) (n : String) : ℚ :=
  match scores.find? (fun p => p.1 == n) with
  | some p => p.2
  | none => 0

/-- Score table built by `detectByHybrid` (database.go lines 337-360) from
the three method votes: `0.95` for the route candidate, `0.70` for the
traffic candidate, and `0.50` for the pattern candidate when the running
re-check succeeds (`patternRunning`). -/
def hybridScores (routeWAN trafficWAN patternWAN : Option WANInterface)
    (patternRunning : Bool) : List (String × ℚ) :=
  let s1 : List (String × ℚ) :=
    match routeWAN with
    | some w => scoreAdd [] w.name 0.95
    | none => []
  let s2 :=
    match trafficWAN with
    | some w => scoreAdd s1 w.name 0.70
    | none => s1
  match patternWAN with
  | some w => if patternRunning then scoreAdd s2 w.name 0.50 else s2
  | none => s2

/-- Candidate table built by `detectByHybrid`: the route vote is stored
unconditionally, the traffic and pattern votes only when the name is not
yet present (the pattern candidate is stored even when not running, exactly
as in the source). -/
def hybridIfaces (routeWAN trafficWAN patternWAN : Option WANInterface) :
    List (String × WANInterface) :=
  let m1 : List (String × WANInterface) :=
    match routeWAN with
    | some w => ifaceSet [] w.name w
    | none => []
  let m2 :=
    match trafficWAN with
    | some w => ifaceAdd m1 w.name w
    | none => m1
  match patternWAN with
  | some w => ifaceAdd m2 w.name w
  | none => m2

/-- One iteration of the argmax loop of `detectByHybrid`
(`if score > maxScore`, strict). -/
def pickStep (acc : Option String × ℚ) (p : String × ℚ) :
    Option String × ℚ :=
  if p.2 > acc.2 then (some p.1, p.2) else acc

/-- Argmax loop of `detectByHybrid` (`bestWAN`/`maxScore`, strict `>`
starting from `nil`/`0`). -/
def pickMax (scores : List (String × ℚ)) : Option String × ℚ :=
  scores.foldl pickStep (none, 0)

/-- The hybrid WAN detection (`detectByHybrid`, database.go lines 332-379):
score accumulation over the three votes, argmax, and the reported method
derived from the maximal score by the `0.90`/`0.70` thresholds.  Returns
`(bestWAN, method, maxScore)`. -/
def detectByHybrid (routeWAN trafficWAN patternWAN : Option WANInterface)
    (patternRunning : Bool) : Option WANInterface × String × ℚ :=
  let scores := hybridScores routeWAN trafficWAN patternWAN patternRunning
  let ifaces := hybridIfaces routeWAN trafficWAN patternWAN
  let best := pickMax scores
  let method :=
    if best.2 ≥ 0.90 then DetectionMethodRoute
    else if best.2 ≥ 0.70 then DetectionMethodTraffic
    else DetectionMethodPattern
  (match best.1 with
   | some n => lookupIface ifaces n
   | none => none,
   method, best.2)

/-- Per-candidate score as the specification words it: the sum of the
confidences of the methods that voted for that candidate.  Used only to
compare the source code against the spec. -/
def specScore (routeWAN trafficWAN patternWAN : Option WANInterface)
    (patternRunning : Bool) (n : String) : ℚ :=
  (if routeWAN.map WANInterface.name = some n then 0.95 else 0) +
  (if trafficWAN.map WANInterface.name = some n then 0.70 else 0) +
  (if patternWAN.map WANInterface.name = some n ∧ patternRunning then 0.50
   else 0)

/-- WAN decision returned when the router session is unavailable
(the `ensureConnected` failure branch of `DetectWANInterface`). -/
def errorWAN (now : Nat) : WANInterface :=
  ⟨"none", "error", 0, now, 0, "error"⟩

/-- WAN decision returned when the session is up but no method produced a
candidate (the final branch of `DetectWANInterface`). -/
def notFoundWAN (now : Nat) : WANInterface :=
  ⟨"none", "not_found", 0, now, 0, "unknown"⟩

/-- Entry point `DetectWANInterface` (database.go lines 216-277), modelled
over an abstract session state: `sessionUp` is the outcome of
`ensureConnected` (non-nil client whose liveness ping succeeded), `best` is
the hybrid result when one exists, `isp` the ISP-name classifier.  The
cache-hit early return is omitted: it only replays a previously returned
decision.  Every branch of the source returns a nil error, hence every
branch of the model is `Except.ok`. -/
def DetectWANInterface (sessionUp : Bool)
    (best : Option (WANInterface × String × ℚ)) (isp : String → String)
    (now : Nat) : Except String WANInterface :=
  if sessionUp = false then .ok (errorWAN now)
  else
    match best with
    | some bwc =>
        .ok { bwc.1 with method := bwc.2.1, confidence := bwc.2.2,
                         lastUpdated := now, ispName := isp bwc.1.name }
    | none => .ok (notFoundWAN now)

/-- Circuit-breaker state constants (`CircuitState`, logging.go lines
413-420). -/
inductive CircuitState where
  | Closed
  | Open
  | HalfOpen
deriving Repr, DecidableEq

/-- Circuit breaker (logging.go lines 403-411): state, counters and the
instant of the last failure. -/
structure CircuitBreaker where
  state : CircuitState
  failureCount : Nat
  successCount : Nat
  lastFailure : Nat
deriving Repr, DecidableEq

/-- Circuit-breaker configuration (logging.go lines 422-427). -/
structure CircuitBreakerConfig where
  failureThreshold : Nat
  recoveryTimeout : Nat
  halfOpenMaxCalls : Nat
deriving Repr, DecidableEq

/-- Configuration the worker pool installs (logging.go lines 457-461):
threshold 5, recovery timeout 60s, 3 half-open calls. -/
def defaultCBConfig : CircuitBreakerConfig := ⟨5, 60, 3⟩

/-- Constructor `NewCircuitBreaker` (logging.go lines 485-490): Closed with zeroed
counters. -/
def NewCircuitBreaker : CircuitBreaker := ⟨.Closed, 0, 0, 0⟩

/-- Model of `RecordSuccess` (logging.go lines 555-563): counts the probe only in
HalfOpen, and always zeroes the consecutive-failure counter. -/
def RecordSuccess (cb : CircuitBreaker) : CircuitBreaker :=
  let cb1 :=
    if cb.state = CircuitState.HalfOpen then
      { cb with successCount := cb.successCount + 1 }
    else cb
  { cb1 with failureCount := 0 }

/-- Model of `RecordFailure` (logging.go lines 566-576): count the failure, stamp
its time, and open the breaker when the count reaches the threshold. -/
def RecordFailure (cfg : CircuitBreakerConfig) (cb : CircuitBreaker)
    (now : Nat) : CircuitBreaker :=
  let cb1 := { cb with failureCount := cb.failureCount + 1,
                       lastFailure := now }
  if cfg.failureThreshold ≤ cb1.failureCount then
    { cb1 with state := CircuitState.Open }
  else cb1

/-- Model of `checkState` (logging.go lines 528-544), run by the 10s supervisor;
`now - lastFailure` models `time.Since(cb.lastFailure)`. -/
def checkState (cfg : CircuitBreakerConfig) (cb : CircuitBreaker)
    (now : Nat) : CircuitBreaker :=
  match cb.state with
  | .Open =>
      if now - cb.lastFailure > cfg.recoveryTimeout then
        { cb with state := CircuitState.HalfOpen, successCount := 0 }
      else cb
  | .HalfOpen =>
      if cfg.halfOpenMaxCalls ≤ cb.successCount then
        { cb with state := CircuitState.Closed, failureCount := 0 }
      else cb
  | .Closed => cb

/-- Model of `Allow` (logging.go lines 547-552): work passes unless Open. -/
def Allow (cb : CircuitBreaker) : Bool :=
  cb.state != CircuitState.Open

/-- Consecutive `RecordFailure` calls at the given instants. -/
def recordFailures (cfg : CircuitBreakerConfig) (cb : CircuitBreaker)
    (times : List Nat) : CircuitBreaker :=
  times.foldl (fun c t => RecordFailure cfg c t) cb

/-- Destination argument of a gorm `Find` call: a pointer to the slice of the caller,
slice (the correct usage), or the string literal actually passed by
`GetMonthlyQuota` (service.go line 622, `.Find("quotas")`). -/
inductive GormDest where
  | slicePtr
  | stringLit (s : String)
deriving Repr, DecidableEq

/-- Insertion step of the day-ascending sort modelling `Order("day ASC")`.
-/
def insertByDay (q : MonthlyQuota) : List MonthlyQuota → List MonthlyQuota
  | [] => [q]
  | x :: xs => if q.day ≤ x.day then q :: x :: xs else x :: insertByDay q xs

/-- Day-ascending sort modelling the `Order("day ASC")` clause. -/
def sortByDay (qs : List MonthlyQuota) : List MonthlyQuota :=
  qs.foldr insertByDay []

/-- Gorm `Find` over the quota table with a `WHERE` filter and the day
ordering, modelled on the destination shape: a pointer to a slice receives
the ordered matching rows; a non-pointer destination (such as a string
literal) makes gorm report an unsupported-destination error and nothing is
bound. -/
def gormFind (store : List MonthlyQuota) (cond : MonthlyQuota → Bool)
    (dest : GormDest) : Except String (List MonthlyQuota) :=
  match dest with
  | .slicePtr => .ok (sortByDay (store.filter cond))
  | .stringLit _ => .error "unsupported destination, should be a pointer"

/-- Accessor `GetMonthlyQuota` (service.go lines 617-624): the query filters on
`(interface_name, month, year)` and orders by day, but the destination
passed to `Find` is the string literal `"quotas"` instead of `&quotas`, so
the local slice is never populated and the gorm error is returned together
with the empty slice. -/
def GetMonthlyQuota (store : List MonthlyQuota) (interfaceName : String)
    (month year : Int) : List MonthlyQuota × Option String :=
  match gormFind store
      (fun q => q.interfaceName == interfaceName && q.month == month &&
        q.year == year)
      (GormDest.stringLit "quotas") with
  | .ok rows => (rows, none)
  | .error e => ([], some e)

/-- Monthly-usage accessor as the specification defines it (spec section
9): all stored day rows for the given `(name, year, month)`, ordered by day
ascending.  Used only to compare the source code against the spec. -/
def getMonthlyQuotaSpec (store : List MonthlyQuota) (interfaceName : String)
    (month year : Int) : List MonthlyQuota :=
  sortByDay (store.filter
    (fun q => q.interfaceName == interfaceName && q.month == month &&
      q.year == year))

/-- Mutex operations performed by a single goroutine, in program order. -/
inductive LockOp where
  | acquire
  | release
deriving Repr, DecidableEq

/-- Lock operations of `MikroTikService.connect` (mikrotik.go lines 55-79):
`s.mu.Lock()` with a deferred `s.mu.Unlock()`. -/
def connectLockTrace : List LockOp := [LockOp.acquire, LockOp.release]

/-- Lock operations of `MikroTikService.GetInterfaces` (mikrotik.go lines
100-141): `s.mu.Lock()` with a deferred unlock, then the call into
`connect`, which locks the same `s.mu` again.  `GetSystemInfo`,
`GetTrafficStats` and `GetLastRebootLog` have the same shape. -/
def getInterfacesLockTrace : List LockOp :=
  [LockOp.acquire] ++ connectLockTrace ++ [LockOp.release]

/-- Single-goroutine execution of a lock trace against one non-reentrant
mutex (Go `sync.Mutex`): an acquire while the goroutine already holds the
mutex blocks forever (and an unlock of an unheld mutex faults), both
modelled as `none`; otherwise the final held-count is returned. -/
def runLockTrace : List LockOp → Nat → Option Nat
  | [], held => some held
  | LockOp.acquire :: rest, held =>
      if held = 0 then runLockTrace rest 1 else none
  | LockOp.release :: rest, held =>
      if held = 0 then none else runLockTrace rest 0

/-- Pub/sub hub state (`WebSocketManager`): the client table keyed by
client id, and the subscription table `interface -> subscriber set`,
modelled as an association list of client-id lists. -/
structure HubState where
  clients : List String
  subscriptions : List (String × List String)
deriving Repr, DecidableEq

/-- One iteration of the `subscribeClient` loop: create the subscriber set
when the interface key is absent, then add the client
(`subscriptions[iface][client] = true`; adding a present member is a
no-op). -/
def subAddOne (subs : List (String × List String)) (iface c : String) :
    List (String × List String) :=
  if subs.any (fun p => p.1 == iface) then
    subs.map (fun p =>
      if p.1 == iface then
        (p.1, if p.2.contains c then p.2 else p.2 ++ [c])
      else p)
  else subs ++ [(iface, [c])]

/-- Model of `subscribeClient`: subscribe one client to a list of interfaces. -/
def subscribeClient (st : HubState) (c : String) (ifaces : List String) :
    HubState :=
  { st with subscriptions :=
      ifaces.foldl (fun a j => subAddOne a j c) st.subscriptions }

/-- One iteration of the `unsubscribeClient` loop: when the key exists,
delete the client from its set and drop the key if the set became empty. -/
def subRemoveOne (subs : List (String × List String)) (iface c : String) :
    List (String × List String) :=
  subs.filterMap (fun p =>
    if p.1 == iface then
      (fun s => if s.isEmpty then none else some (p.1, s))
        (p.2.filter (fun x => x != c))
    else some p)

/-- Model of `unsubscribeClient`: unsubscribe one client from a list of
interfaces. -/
def unsubscribeClient (st : HubState) (c : String) (ifaces : List String) :
    HubState :=
  { st with subscriptions :=
      ifaces.foldl (fun a j => subRemoveOne a j c) st.subscriptions }

/-- Model of `unregisterClient`: drop the client from the client table, and from
every subscriber set that contains it, dropping interface keys whose set
becomes empty. -/
def unregisterClient (st : HubState) (c : String) : HubState :=
  { clients := st.clients.filter (fun x => x != c)
    subscriptions := st.subscriptions.filterMap (fun p =>
      if p.2.contains c then
        (fun s => if s.isEmpty then none else some (p.1, s))
          (p.2.filter (fun x => x != c))
      else some p) }

/-- Read of one subscriber set. -/
def subLookup (subs : List (String × List String)) (iface : String) :
    Option (List String) :=
  (subs.find? (fun p => p.1 == iface)).map (fun p => p.2)

/-- Hygiene invariant on the subscription table: every interface key
present in the map has a non-empty subscriber set. -/
def HubClean (st : HubState) : Prop :=
  ∀ p ∈ st.subscriptions, p.2 ≠ []

/-- Delta pair as the specification words it: full current values on the
reset-or-regression branch, differences against the cached baselines on the
normal branch.  Used only to compare the source code against the spec. -/
def specDelta (lastRx lastTx curRx curTx : Nat) (isReset : Bool) :
    Nat × Nat :=
  if isReset ∨ curRx < lastRx ∨ curTx < lastTx then (curRx, curTx)
  else (curRx - lastRx, curTx - lastTx)

/-- Data-integrity invariant on a quota day row (spec section 3). -/
def QuotaInv (q : MonthlyQuota) : Prop :=
  q.rxBytes ≤ q.totalRx ∧ q.txBytes ≤ q.totalTx ∧
    q.totalBytes = q.rxBytes + q.txBytes

/-- Lookup of the current row for an interface name
(the `First` query in `saveInterfaceData`). -/
def findRow (rows : List InterfaceRow) (name : String) : Option InterfaceRow :=
  rows.find? (fun r => r.interfaceName == name)

/-- Upsert on `interface_name` (the `clause.OnConflict` create in
`saveInterfaceData`): conflict updates counters, rates and `last_seen`;
otherwise a new row is created. -/
def upsertInterface (rows : List InterfaceRow) (iface : InterfaceData)
    (now : Nat) : List InterfaceRow :=
  if rows.any (fun r => r.interfaceName == iface.name) then
    rows.map (fun r =>
      if r.interfaceName == iface.name then
        { r with rxBytes := iface.rxBytes, txBytes := iface.txBytes,
                 rxRate := iface.rxRate, txRate := iface.txRate,
                 lastSeen := now }
      else r)
  else
    rows ++ [⟨iface.name, iface.rxBytes, iface.txBytes, iface.rxRate,
             iface.txRate, now⟩]

/-- Persistent store state touched by the collector: the interface table,
the append-only reset log and the monthly-quota table.  (The snapshot table
is not involved in any verified property and is omitted.) -/
structure DBState where
  interfaces : List InterfaceRow
  resetLogs : List CounterResetLog
  quotas : List MonthlyQuota
deriving Repr, DecidableEq

/-- Data writes of the per-interface write of one collection tick
(`saveInterfaceData`, service.go lines 355-411): read the existing row,
derive `isReset`, upsert the row, append a reset log on regression, and run
the monthly-quota updater with the derived `isReset`.  This is the
lock-erased intended semantics of the body: the Go function holds the
package-level `dbMutex` (line 356) when it calls `updateMonthlyQuota`,
which re-acquires the same non-reentrant mutex (line 486), so the real call
never returns past the quota update — see `saveInterfaceDataLockTrace` and
`collectOnlineObservable` for what actually happens. -/
def saveInterfaceData (st : DBState) (iface : InterfaceData) (now : Nat)
    (d m y : Int) : DBState :=
  match findRow st.interfaces iface.name with
  | none =>
      { interfaces := upsertInterface st.interfaces iface now
        resetLogs := st.resetLogs
        quotas := updateMonthlyQuota st.quotas iface false d m y }
  | some e =>
      let isReset : Bool :=
        decide (iface.rxBytes < e.rxBytes) ||
          decide (iface.txBytes < e.txBytes)
      { interfaces := upsertInterface st.interfaces iface now
        resetLogs := st.resetLogs ++
          (if isReset then
            [⟨iface.name, now, e.rxBytes + e.txBytes,
              iface.rxBytes + iface.txBytes, "sudden_drop"⟩]
          else [])
        quotas := updateMonthlyQuota st.quotas iface isReset d m y }

/-- Merge of the fanned-out traffic probe results into a sample
(`collectData` online path): a probe hit overrides the rates, a miss sets
both rates to `0`. -/
def mergeRates (iface : InterfaceData) (rates : String → Option (ℚ × ℚ)) :
    InterfaceData :=
  match rates iface.name with
  | some rt => { iface with rxRate := rt.1, txRate := rt.2 }
  | none => { iface with rxRate := 0, txRate := 0 }

/-- Online path of a collection tick as intended: rate merge followed by
the sequential per-interface writes.  Lock-erased like
`saveInterfaceData`; the real online tick self-deadlocks inside the first
sample — its observable effect is `collectOnlineObservable`. -/
def collectOnline (st : DBState) (ifaces : List InterfaceData)
    (rates : String → Option (ℚ × ℚ)) (now : Nat) (d m y : Int) : DBState :=
  (ifaces.map (fun i => mergeRates i rates)).foldl
    (fun acc s => saveInterfaceData acc s now d m y) st

/-- Interface sample rebuilt from a stored row on the offline path
(`RecordOfflineStatus`): last known cumulative counters, zero rates. -/
def offlineSample (r : InterfaceRow) : InterfaceData :=
  ⟨r.interfaceName, r.rxBytes, r.txBytes, 0, 0, "", ""⟩

/-- Offline form of a stored row: `rx_rate = 0`, `tx_rate = 0`,
`last_seen = now`, counters untouched. -/
def offRow (r : InterfaceRow) (now : Nat) : InterfaceRow :=
  { r with rxRate := 0, txRate := 0, lastSeen := now }

/-- Offline update of one stored row in the table (the
`db.Model(&iface).Updates` write in `RecordOfflineStatus`). -/
def markOffline (rows : List InterfaceRow) (name : String) (now : Nat) :
    List InterfaceRow :=
  rows.map (fun r => if r.interfaceName == name then offRow r now else r)

/-- Loop body of `RecordOfflineStatus`: mark one known interface offline and
still run the monthly-quota updater with the stored counters and
`isReset = false`. -/
def offStep (now : Nat) (d m y : Int) (acc : DBState) (r : InterfaceRow) :
    DBState :=
  { acc with
    interfaces := markOffline acc.interfaces r.interfaceName now
    quotas := updateMonthlyQuota acc.quotas (offlineSample r) false d m y }

/-- Offline path of a collection tick (`RecordOfflineStatus`, service.go
lines 432-480): iterate `offStep` over the interfaces known at entry. -/
def recordOfflineStatus (st : DBState) (now : Nat) (d m y : Int) : DBState :=
  st.interfaces.foldl (offStep now d m y) st

/-- Collection tick (`collectData`, service.go lines 280-353, the
retry-enabled variant the spec fixes as authoritative): `routerReply = none`
abstracts `GetInterfaces` failing on all three retries, in which case the
tick runs the offline path instead of returning early. -/
def collectData (st : DBState) (routerReply : Option (List InterfaceData))
    (rates : String → Option (ℚ × ℚ)) (now : Nat) (d m y : Int) : DBState :=
  match routerReply with
  | none => recordOfflineStatus st now d m y
  | some ifaces => collectOnline st ifaces rates now d m y

/-- Lock operations of `updateMonthlyQuota` (service.go lines 486-487):
`dbMutex.Lock()` with a deferred unlock. -/
def updateMonthlyQuotaLockTrace : List LockOp :=
  [LockOp.acquire, LockOp.release]

/-- Lock operations of the online-path `saveInterfaceData` (service.go
lines 355-411): `dbMutex.Lock()` with a deferred unlock (line 356), the row
upsert and reset-log insert under the lock, then the call into
`updateMonthlyQuota` (line 408), which locks the same package-level
`dbMutex` again (line 486). -/
def saveInterfaceDataLockTrace : List LockOp :=
  [LockOp.acquire] ++ updateMonthlyQuotaLockTrace ++ [LockOp.release]

/-- Data writes `saveInterfaceData` completes before it blocks: the row
upsert and the reset-log insert (service.go lines 378-400) execute under
`dbMutex` before the call into `updateMonthlyQuota` deadlocks on the
re-acquisition, so they are the whole observable effect of the call. -/
def saveInterfaceDataPreQuota (st : DBState) (iface : InterfaceData)
    (now : Nat) : DBState :=
  match findRow st.interfaces iface.name with
  | none =>
      { st with interfaces := upsertInterface st.interfaces iface now }
  | some e =>
      { st with
        interfaces := upsertInterface st.interfaces iface now
        resetLogs := st.resetLogs ++
          (if decide (iface.rxBytes < e.rxBytes) ||
              decide (iface.txBytes < e.txBytes) then
            [⟨iface.name, now, e.rxBytes + e.txBytes,
              iface.rxBytes + iface.txBytes, "sudden_drop"⟩]
          else []) }

/-- Observable database state of an online collection tick: with no
samples the per-interface loop never runs and the tick completes; with at
least one sample, the write for the first sample performs its pre-quota
writes and then self-deadlocks inside `updateMonthlyQuota`, so no later
sample of the tick is ever processed. -/
def collectOnlineObservable (st : DBState) (ifaces : List InterfaceData)
    (rates : String → Option (ℚ × ℚ)) (now : Nat) : DBState :=
  match ifaces.map (fun i => mergeRates i rates) with
  | [] => st
  | s :: _ => saveInterfaceDataPreQuota st s now

/-- Concrete day row used by witnesses. -/
def sampleQuotaRow : MonthlyQuota :=
  ⟨"xether2", 5, 1, 2026, 100, 30, 130, 100, 30, 200, 80⟩

/-- Concrete interface sample used by witnesses. -/
def sampleIface : InterfaceData :=
  ⟨"xether2", 250, 90, 0, 0, "true", ""⟩

/-- Route-method candidate (interface A) for the hybrid scenario. -/
def routeCand : WANInterface :=
  ⟨"ether1", "default_route", 0.95, 0, 500, ""⟩

/-- Traffic-method candidate (interface B) for the hybrid scenario. -/
def trafficCand : WANInterface :=
  ⟨"ether2", "traffic_analysis", 0.7, 0, 1000000, ""⟩

/-- Pattern-method candidate also voting for interface B. -/
def patternCand : WANInterface :=
  ⟨"ether2", "name_pattern", 0.6, 0, 0, ""⟩

/-- Concrete stored interface row used by witnesses. -/
def sampleRow : InterfaceRow :=
  ⟨"xether2", 1000, 500, 3, 2, 99⟩

theorem updateQuotaRow_spec (q : MonthlyQuota) (curRx curTx : Nat)
    (isReset : Bool) :
    updateQuotaRow q curRx curTx isReset =
      { q with
        rxBytes := q.rxBytes +
          (specDelta q.lastRxBytes q.lastTxBytes curRx curTx isReset).1
        txBytes := q.txBytes +
          (specDelta q.lastRxBytes q.lastTxBytes curRx curTx isReset).2
        totalBytes :=
          (q.rxBytes +
            (specDelta q.lastRxBytes q.lastTxBytes curRx curTx isReset).1) +
          (q.txBytes +
            (specDelta q.lastRxBytes q.lastTxBytes curRx curTx isReset).2)
        totalRx := q.totalRx +
          (specDelta q.lastRxBytes q.lastTxBytes curRx curTx isReset).1
        totalTx := q.totalTx +
          (specDelta q.lastRxBytes q.lastTxBytes curRx curTx isReset).2
        lastRxBytes := curRx
        lastTxBytes := curTx } := by
  rcases q with ⟨n, dd, mm, yy, rx, tx, tb, trx, ttx, lrx, ltx⟩
  simp only [updateQuotaRow, specDelta]
  split_ifs <;> simp_all <;> omega

/-- C1: the monthly-quota updater follows the delta branch rules of the
specification.  On an existing `(name, y, m, d)` row the deltas are the full
current counters when `isReset` or either counter regressed below its cached
baseline, and the differences against the baselines otherwise; the deltas
are added to `rx_bytes`/`tx_bytes`/`total_rx`/`total_tx`,
`total_bytes = rx_bytes + tx_bytes` is re-derived, and the baselines are
refreshed to the current counters.  On a missing row a fresh row with all
accumulators zero and baselines equal to the current counters is appended,
with no delta added on the creation tick. -/
theorem monthly_quota_delta_rules (qs : List MonthlyQuota)
    (iface : InterfaceData) (isReset : Bool) (d m y : Int) :
    updateMonthlyQuota qs iface isReset d m y =
      match quotaLookup qs iface.name d m y with
      | none =>
          qs ++ [{ interfaceName := iface.name, day := d, month := m,
                   year := y, rxBytes := 0, txBytes := 0, totalBytes := 0,
                   totalRx := 0, totalTx := 0,
                   lastRxBytes := iface.rxBytes,
                   lastTxBytes := iface.txBytes }]
      | some q =>
          quotaReplaceFirst qs iface.name d m y
            { q with
              rxBytes := q.rxBytes + (specDelta q.lastRxBytes q.lastTxBytes
                iface.rxBytes iface.txBytes isReset).1
              txBytes := q.txBytes + (specDelta q.lastRxBytes q.lastTxBytes
                iface.rxBytes iface.txBytes isReset).2
              totalBytes :=
                (q.rxBytes + (specDelta q.lastRxBytes q.lastTxBytes
                  iface.rxBytes iface.txBytes isReset).1) +
                (q.txBytes + (specDelta q.lastRxBytes q.lastTxBytes
                  iface.rxBytes iface.txBytes isReset).2)
              totalRx := q.totalRx + (specDelta q.lastRxBytes q.lastTxBytes
                iface.rxBytes iface.txBytes isReset).1
              totalTx := q.totalTx + (specDelta q.lastRxBytes q.lastTxBytes
                iface.rxBytes iface.txBytes isReset).2
              lastRxBytes := iface.rxBytes
              lastTxBytes := iface.txBytes } := by
  unfold updateMonthlyQuota
  cases h : quotaLookup qs iface.name d m y with
  | none => simp [newQuota]
  | some q => simp [updateQuotaRow_spec]

/-- C2: every quota day row created by the updater satisfies
`rx_bytes ≤ total_rx`, `tx_bytes ≤ total_tx` and
`total_bytes = rx_bytes + tx_bytes`; the updater preserves that invariant;
and across successive updater calls on the same row the five accumulator
fields never decrease. -/
theorem monthly_quota_invariants (iface : InterfaceData) (d m y : Int)
    (q : MonthlyQuota) (curRx curTx : Nat) (isReset : Bool)
    (h : QuotaInv q) :
    QuotaInv (newQuota iface d m y) ∧
    QuotaInv (updateQuotaRow q curRx curTx isReset) ∧
    q.rxBytes ≤ (updateQuotaRow q curRx curTx isReset).rxBytes ∧
    q.txBytes ≤ (updateQuotaRow q curRx curTx isReset).txBytes ∧
    q.totalBytes ≤ (updateQuotaRow q curRx curTx isReset).totalBytes ∧
    q.totalRx ≤ (updateQuotaRow q curRx curTx isReset).totalRx ∧
    q.totalTx ≤ (updateQuotaRow q curRx curTx isReset).totalTx := by
  obtain ⟨hrx, htx, htot⟩ := h
  unfold updateQuotaRow newQuota QuotaInv
  dsimp only
  split <;> (try split) <;> simp_all <;> omega


theorem quotaKeyMatch_updateQuotaRow (q : MonthlyQuota) (c1 c2 : Nat)
    (b : Bool) (name : String) (d m y : Int) :
    quotaKeyMatch (updateQuotaRow q c1 c2 b) name d m y =
      quotaKeyMatch q name d m y := rfl

theorem quotaKeyMatch_newQuota (iface : InterfaceData) (d m y : Int) :
    quotaKeyMatch (newQuota iface d m y) iface.name d m y = true := by
  simp [quotaKeyMatch, newQuota]

theorem quotaLookup_replaceFirst_self (qs : List MonthlyQuota)
    (name : String) (d m y : Int) (r : MonthlyQuota)
    (hr : quotaKeyMatch r name d m y = true)
    (hex : (quotaLookup qs name d m y).isSome = true) :
    quotaLookup (quotaReplaceFirst qs name d m y r) name d m y = some r := by
  induction qs with
  | nil => simp [quotaLookup] at hex
  | cons q rest ih =>
      by_cases hq : quotaKeyMatch q name d m y
      · show quotaLookup (if quotaKeyMatch q name d m y then r :: rest
          else q :: quotaReplaceFirst rest name d m y r) name d m y = some r
        rw [if_pos hq]
        show List.find? _ (r :: rest) = some r
        exact List.find?_cons_of_pos _ hr
      · have hex2 : (quotaLookup rest name d m y).isSome = true := by
          have : quotaLookup (q :: rest) name d m y =
              quotaLookup rest name d m y := by
            show List.find? _ (q :: rest) = _
            exact List.find?_cons_of_neg _ (by simpa using hq)
          rwa [this] at hex
        show quotaLookup (if quotaKeyMatch q name d m y then r :: rest
          else q :: quotaReplaceFirst rest name d m y r) name d m y = some r
        rw [if_neg hq]
        show List.find? _ (q :: quotaReplaceFirst rest name d m y r) = some r
        rw [List.find?_cons_of_neg _ (by simpa using hq)]
        exact ih hex2

theorem quotaReplaceFirst_find?_frame (qs : List MonthlyQuota)
    (name : String) (d m y : Int) (r : MonthlyQuota)
    (p : MonthlyQuota → Bool) (h1 : p r = false)
    (h2 : ∀ x, quotaKeyMatch x name d m y = true → p x = false) :
    (quotaReplaceFirst qs name d m y r).find? p = qs.find? p := by
  induction qs with
  | nil => rfl
  | cons q rest ih =>
      show List.find? p (if quotaKeyMatch q name d m y then r :: rest
        else q :: quotaReplaceFirst rest name d m y r) = _
      by_cases hq : quotaKeyMatch q name d m y
      · rw [if_pos hq,
          List.find?_cons_of_neg _ (by simp [h1]),
          List.find?_cons_of_neg _ (by simp [h2 q hq])]
      · rw [if_neg hq]
        by_cases hpq : p q
        · rw [List.find?_cons_of_pos _ hpq, List.find?_cons_of_pos _ hpq]
        · rw [List.find?_cons_of_neg _ (by simpa using hpq),
            List.find?_cons_of_neg _ (by simpa using hpq), ih]

theorem quotaLookup_update_self (qs : List MonthlyQuota)
    (iface : InterfaceData) (b : Bool) (d m y : Int) :
    quotaLookup (updateMonthlyQuota qs iface b d m y) iface.name d m y =
      some (match quotaLookup qs iface.name d m y with
            | none => newQuota iface d m y
            | some q => updateQuotaRow q iface.rxBytes iface.txBytes b) := by
  unfold updateMonthlyQuota
  cases h : quotaLookup qs iface.name d m y with
  | none =>
      have h2 : List.find?
          (fun q => quotaKeyMatch q iface.name d m y) qs = none := h
      show List.find? _ (qs ++ [newQuota iface d m y]) = _
      rw [List.find?_append, h2]
      simp [quotaKeyMatch_newQuota]
  | some q =>
      have h2 : List.find?
          (fun x => quotaKeyMatch x iface.name d m y) qs = some q := h
      apply quotaLookup_replaceFirst_self
      · rw [quotaKeyMatch_updateQuotaRow]
        exact @List.find?_some _
          (fun x => quotaKeyMatch x iface.name d m y) q qs h2
      · rw [h]; rfl

theorem quotaKeyMatch_name (x : MonthlyQuota) (name : String) (d m y : Int)
    (hx : quotaKeyMatch x name d m y = true) : x.interfaceName = name := by
  simp only [quotaKeyMatch, Bool.and_eq_true, beq_iff_eq] at hx
  exact hx.1.1.1

theorem quotaLookup_update_frame (qs : List MonthlyQuota)
    (iface : InterfaceData) (b : Bool) (d m y : Int) (n : String)
    (hn : n ≠ iface.name) :
    quotaLookup (updateMonthlyQuota qs iface b d m y) n d m y =
      quotaLookup qs n d m y := by
  have hkey : ∀ x : MonthlyQuota, quotaKeyMatch x iface.name d m y = true →
      quotaKeyMatch x n d m y = false := by
    intro x hx
    have hname := quotaKeyMatch_name x iface.name d m y hx
    have hfalse : (x.interfaceName == n) = false := by
      rw [hname]
      simpa using fun hc => hn hc.symm
    simp [quotaKeyMatch, hfalse]
  unfold updateMonthlyQuota
  cases h : quotaLookup qs iface.name d m y with
  | none =>
      show List.find? _ (qs ++ [newQuota iface d m y]) = _
      rw [List.find?_append]
      have hnq : List.find? (fun q => quotaKeyMatch q n d m y)
          [newQuota iface d m y] = none := by
        rw [List.find?_cons_of_neg _
          (by simp [hkey _ (quotaKeyMatch_newQuota iface d m y)])]
        rfl
      rw [hnq]
      show (List.find? (fun q => quotaKeyMatch q n d m y) qs).or none =
        List.find? (fun q => quotaKeyMatch q n d m y) qs
      cases List.find? (fun q => quotaKeyMatch q n d m y) qs <;> rfl
  | some q =>
      have h2 : List.find?
          (fun x => quotaKeyMatch x iface.name d m y) qs = some q := h
      apply quotaReplaceFirst_find?_frame
      · exact hkey _ (by
          rw [quotaKeyMatch_updateQuotaRow]
          exact @List.find?_some _
            (fun x => quotaKeyMatch x iface.name d m y) q qs h2)
      · exact hkey

theorem offFold_resetLogs (todo : List InterfaceRow) (acc : DBState)
    (now : Nat) (d m y : Int) :
    (todo.foldl (offStep now d m y) acc).resetLogs = acc.resetLogs := by
  induction todo generalizing acc with
  | nil => rfl
  | cons t rest ih =>
      rw [List.foldl_cons, ih]
      rfl

theorem offFold_interfaces (todo : List InterfaceRow) (acc : DBState)
    (now : Nat) (d m y : Int) :
    (todo.foldl (offStep now d m y) acc).interfaces =
      acc.interfaces.map (fun r =>
        if r.interfaceName ∈ todo.map InterfaceRow.interfaceName then
          offRow r now
        else r) := by
  induction todo generalizing acc with
  | nil => simp
  | cons t rest ih =>
      rw [List.foldl_cons, ih]
      show (markOffline acc.interfaces t.interfaceName now).map _ = _
      rw [markOffline, List.map_map]
      refine List.map_congr_left ?_
      intro r _
      by_cases h1 : r.interfaceName = t.interfaceName <;>
        by_cases h2 :
            r.interfaceName ∈ rest.map InterfaceRow.interfaceName <;>
          simp [Function.comp, h1, h2, offRow]

theorem offFold_quota_frame (todo : List InterfaceRow) (acc : DBState)
    (now : Nat) (d m y : Int) (n : String)
    (h : ∀ u ∈ todo, u.interfaceName ≠ n) :
    quotaLookup (todo.foldl (offStep now d m y) acc).quotas n d m y =
      quotaLookup acc.quotas n d m y := by
  induction todo generalizing acc with
  | nil => rfl
  | cons t rest ih =>
      rw [List.foldl_cons,
        ih _ (fun u hu => h u (List.mem_cons_of_mem _ hu))]
      show quotaLookup
        (updateMonthlyQuota acc.quotas (offlineSample t) false d m y)
        n d m y = _
      refine quotaLookup_update_frame _ _ _ _ _ _ _ ?_
      have ht := h t (List.mem_cons_self _ _)
      simpa [offlineSample] using fun hh => ht hh.symm

theorem offFold_quota (todo : List InterfaceRow) (now : Nat) (d m y : Int) :
    ∀ acc : DBState,
      (todo.map InterfaceRow.interfaceName).Nodup →
      ∀ r ∈ todo,
        quotaLookup (todo.foldl (offStep now d m y) acc).quotas
            r.interfaceName d m y =
          some (match quotaLookup acc.quotas r.interfaceName d m y with
                | none => newQuota (offlineSample r) d m y
                | some q => updateQuotaRow q r.rxBytes r.txBytes false) := by
  induction todo with
  | nil => intro acc _ r hr; cases hr
  | cons t rest ih =>
      intro acc hnd r hr
      have hnotin : t.interfaceName ∉ rest.map InterfaceRow.interfaceName :=
        (List.nodup_cons.mp (by simpa using hnd)).1
      have hndrest : (rest.map InterfaceRow.interfaceName).Nodup :=
        (List.nodup_cons.mp (by simpa using hnd)).2
      rcases List.mem_cons.mp hr with rfl | hr2
      · rw [List.foldl_cons,
          offFold_quota_frame rest _ now d m y r.interfaceName
            (fun u hu hc => hnotin (hc ▸ List.mem_map_of_mem _ hu))]
        show quotaLookup
          (updateMonthlyQuota acc.quotas (offlineSample r) false d m y)
          r.interfaceName d m y = _
        have hself := quotaLookup_update_self acc.quotas
          (offlineSample r) false d m y
        simpa [offlineSample] using hself
      · have hne : r.interfaceName ≠ t.interfaceName := by
          intro hc
          exact hnotin (hc ▸ List.mem_map_of_mem _ hr2)
        rw [List.foldl_cons, ih _ hndrest r hr2]
        have hlk : quotaLookup (offStep now d m y acc t).quotas
            r.interfaceName d m y =
            quotaLookup acc.quotas r.interfaceName d m y := by
          show quotaLookup
            (updateMonthlyQuota acc.quotas (offlineSample t) false d m y)
            r.interfaceName d m y = _
          exact quotaLookup_update_frame _ _ _ _ _ _ _
            (by simpa [offlineSample] using hne)
        rw [hlk]

/-- C4: when `list_interfaces` fails on all three retries the tick does not
return early but runs the offline path: every known interface row gets
`rx_rate = 0`, `tx_rate = 0`, `last_seen = now` with its cumulative counters
unchanged, no CounterResetLog entry is produced, and the monthly-quota
updater still runs for every known interface with the stored counters and
`isReset = false`, creating the day row with baselines equal to the
preserved counters when absent and touching it otherwise. -/
theorem offline_tick (st : DBState) (rates : String → Option (ℚ × ℚ))
    (now : Nat) (d m y : Int)
    (hnodup : (st.interfaces.map InterfaceRow.interfaceName).Nodup) :
    collectData st none rates now d m y = recordOfflineStatus st now d m y ∧
    (collectData st none rates now d m y).resetLogs = st.resetLogs ∧
    (collectData st none rates now d m y).interfaces =
      st.interfaces.map (fun r =>
        { r with rxRate := 0, txRate := 0, lastSeen := now }) ∧
    ∀ r ∈ st.interfaces,
      quotaLookup (collectData st none rates now d m y).quotas
          r.interfaceName d m y =
        some (match quotaLookup st.quotas r.interfaceName d m y with
              | none =>
                  { interfaceName := r.interfaceName, day := d, month := m,
                    year := y, rxBytes := 0, txBytes := 0, totalBytes := 0,
                    totalRx := 0, totalTx := 0, lastRxBytes := r.rxBytes,
                    lastTxBytes := r.txBytes }
              | some q => updateQuotaRow q r.rxBytes r.txBytes false) := by
  refine ⟨rfl, offFold_resetLogs _ _ _ _ _ _, ?_, ?_⟩
  · show (st.interfaces.foldl (offStep now d m y) st).interfaces = _
    rw [offFold_interfaces]
    refine List.map_congr_left ?_
    intro r hr
    simp [List.mem_map_of_mem _ hr, offRow]
  · intro r hr
    have h := offFold_quota st.interfaces now d m y st hnodup r hr
    show quotaLookup
      (st.interfaces.foldl (offStep now d m y) st).quotas
      r.interfaceName d m y = _
    rw [h]
    cases quotaLookup st.quotas r.interfaceName d m y <;>
      simp [newQuota, offlineSample]

theorem find?_map_comm {α : Type} (s : List α) (f : α → α) (p : α → Bool)
    (hf : ∀ x, p (f x) = p x) :
    (s.map f).find? p = (s.find? p).map f := by
  induction s with
  | nil => rfl
  | cons x rest ih =>
      by_cases hx : p x
      · rw [List.map_cons, List.find?_cons_of_pos _ (by rw [hf]; exact hx),
          List.find?_cons_of_pos _ hx]
        rfl
      · rw [List.map_cons,
          List.find?_cons_of_neg _ (by rw [hf]; simpa using hx),
          List.find?_cons_of_neg _ (by simpa using hx), ih]

theorem scoreLookup_scoreAdd (s : List (String × ℚ)) (name n : String)
    (v : ℚ) :
    scoreLookup (scoreAdd s name v) n =
      scoreLookup s n + (if name = n then v else 0) := by
  unfold scoreAdd scoreLookup
  by_cases hany : s.any (fun p => p.1 == name)
  · rw [if_pos hany, find?_map_comm s _ _
      (fun x => by by_cases h : x.1 == name <;> simp [h])]
    cases hfind : s.find? (fun p => p.1 == n) with
    | some q =>
        have hq : q.1 = n := by
          have := @List.find?_some _ (fun p => p.1 == n) q s hfind
          simpa using this
        by_cases hn : name = n
        · subst hn
          simp [hq]
        · have hfq : ¬q.1 = name := by
            rw [hq]
            exact fun hc => hn hc.symm
          simp [hfq, hn]
    | none =>
        by_cases hn : name = n
        · subst hn
          have hsome : (s.find? (fun p => p.1 == name)).isSome := by
            rw [List.find?_isSome]
            simpa [List.any_eq_true] using hany
          rw [hfind] at hsome
          simp at hsome
        · simp [hn]
  · rw [if_neg hany, List.find?_append]
    have hnone : s.find? (fun p => p.1 == name) = none := by
      rw [List.find?_eq_none]
      intro x hx
      rw [List.any_eq_true] at hany
      exact fun hc => hany ⟨x, hx, hc⟩
    by_cases hn : name = n
    · subst hn
      rw [hnone]
      simp [List.find?]
    · have hsing : List.find? (fun p => p.1 == n) [(name, v)] = none := by
        rw [List.find?_cons_of_neg _ (by simpa using hn)]
        rfl
      rw [hsing]
      cases hfs : s.find? (fun p => p.1 == n) <;> simp [hn]

theorem pickFold_ge (scores : List (String × ℚ)) :
    ∀ acc : Option String × ℚ,
      acc.2 ≤ (scores.foldl pickStep acc).2 ∧
        ∀ p ∈ scores, p.2 ≤ (scores.foldl pickStep acc).2 := by
  induction scores with
  | nil =>
      intro acc
      exact ⟨le_refl _, fun p hp => absurd hp (List.not_mem_nil p)⟩
  | cons q rest ih =>
      intro acc
      rw [List.foldl_cons]
      obtain ⟨h1, h2⟩ := ih (pickStep acc q)
      have hstep : acc.2 ≤ (pickStep acc q).2 := by
        unfold pickStep
        by_cases h : q.2 > acc.2
        · rw [if_pos h]
          exact le_of_lt h
        · rw [if_neg h]
      have hq : q.2 ≤ (pickStep acc q).2 := by
        unfold pickStep
        by_cases h : q.2 > acc.2
        · rw [if_pos h]
        · rw [if_neg h]
          exact le_of_not_lt h
      refine ⟨le_trans hstep h1, ?_⟩
      intro p hp
      rcases List.mem_cons.mp hp with rfl | hp2
      · exact le_trans hq h1
      · exact h2 p hp2

theorem lookupIface_head (name : String) (w : WANInterface)
    (rest : List (String × WANInterface)) :
    lookupIface ((name, w) :: rest) name = some w := by
  unfold lookupIface
  rw [List.find?_cons_of_pos _ (by simp)]
  rfl

theorem lookupIface_ifaceAdd_head (name : String) (w : WANInterface)
    (rest : List (String × WANInterface)) (nm : String)
    (wp : WANInterface) :
    lookupIface (ifaceAdd ((name, w) :: rest) nm wp) name = some w := by
  unfold ifaceAdd
  by_cases h : (((name, w) :: rest).any (fun p => p.1 == nm))
  · rw [if_pos h, lookupIface_head]
  · rw [if_neg h]
    unfold lookupIface
    rw [List.cons_append, List.find?_cons_of_pos _ (by simp)]
    rfl

theorem hybridScores_lookup (routeWAN trafficWAN patternWAN :
    Option WANInterface) (patternRunning : Bool) (n : String) :
    scoreLookup
        (hybridScores routeWAN trafficWAN patternWAN patternRunning) n =
      specScore routeWAN trafficWAN patternWAN patternRunning n := by
  have hnil : ∀ k : String, scoreLookup [] k = 0 := fun _ => rfl
  unfold hybridScores specScore
  cases routeWAN <;> cases trafficWAN <;> cases patternWAN <;>
    cases patternRunning <;>
      simp [scoreLookup_scoreAdd, hnil]

/-- C5 counterexample: route votes ether1 (A) and traffic votes ether2 (B),
so the claim requires the decision to be A; but when the pattern method
also votes B for a running interface, B accumulates 0.70 + 0.50 = 1.20 >
0.95 and wins the argmax, so the decision is B, not A. -/
theorem wan_hybrid_counterexample :
    (detectByHybrid (some routeCand) (some trafficCand) (some patternCand)
        true).1.map WANInterface.name = some "ether2" ∧
      ("ether2" : String) ≠ "ether1" := by
  have h12 : ¬("ether1" : String) = "ether2" := by decide
  have h21 : ¬("ether2" : String) = "ether1" := by decide
  have hb12 : (("ether1" : String) == "ether2") = false := by decide
  have hb21 : (("ether2" : String) == "ether1") = false := by decide
  constructor
  · norm_num [detectByHybrid, hybridScores, hybridIfaces, pickMax, pickStep,
      scoreAdd, ifaceSet, ifaceAdd, lookupIface, routeCand, trafficCand,
      patternCand, List.any, List.find?, h12, h21, hb12, hb21]
  · decide

/-- C5 (amended): in hybrid detection the per-candidate score is the sum of
the confidences of the methods that voted for it (route 0.95, traffic 0.70,
pattern 0.50 for a running interface); the reported maximal score bounds
every candidate score; the reported method is route when the maximal score
is at least 0.90, traffic when at least 0.70, and pattern otherwise; and
when route picks A, traffic picks a different B, and the pattern method
votes for neither A nor B, the decision is A with method route and
confidence 0.95.  (Without the last proviso the claim fails: a running
pattern vote for B lifts B to 1.20, see the counterexample.) -/
theorem wan_hybrid_decision (routeWAN trafficWAN patternWAN :
    Option WANInterface) (patternRunning : Bool) (wr wt : WANInterface)
    (hr : routeWAN = some wr) (ht : trafficWAN = some wt)
    (hne : wt.name ≠ wr.name)
    (hp : ∀ wp, patternWAN = some wp → patternRunning = true →
      wp.name ≠ wr.name ∧ wp.name ≠ wt.name) :
    (∀ n, scoreLookup (hybridScores routeWAN trafficWAN patternWAN
        patternRunning) n =
      specScore routeWAN trafficWAN patternWAN patternRunning n) ∧
    (∀ p ∈ hybridScores routeWAN trafficWAN patternWAN patternRunning,
      p.2 ≤ (detectByHybrid routeWAN trafficWAN patternWAN
        patternRunning).2.2) ∧
    ((detectByHybrid routeWAN trafficWAN patternWAN patternRunning).2.1 =
      if (detectByHybrid routeWAN trafficWAN patternWAN
          patternRunning).2.2 ≥ 0.90 then DetectionMethodRoute
      else if (detectByHybrid routeWAN trafficWAN patternWAN
          patternRunning).2.2 ≥ 0.70 then DetectionMethodTraffic
      else DetectionMethodPattern) ∧
    detectByHybrid routeWAN trafficWAN patternWAN patternRunning =
      (some wr, DetectionMethodRoute, 0.95) := by
  subst hr
  subst ht
  have hwrwt : ¬wr.name = wt.name := fun hc => hne hc.symm
  refine ⟨hybridScores_lookup _ _ _ patternRunning, ?_, rfl, ?_⟩
  · intro p hp2
    show p.2 ≤ (pickMax (hybridScores (some wr) (some wt) patternWAN
      patternRunning)).2
    exact (pickFold_ge _ (none, 0)).2 p hp2
  · have hs2 : scoreAdd (scoreAdd [] wr.name 0.95) wt.name 0.70 =
        [(wr.name, 0.95), (wt.name, 0.70)] := by
      simp [scoreAdd, hwrwt]
    have hm2 : ifaceAdd (ifaceSet [] wr.name wr) wt.name wt =
        [(wr.name, wr), (wt.name, wt)] := by
      simp [ifaceAdd, ifaceSet, hwrwt]
    have hpick2 : pickMax [(wr.name, 0.95), (wt.name, 0.70)] =
        (some wr.name, 0.95) := by
      norm_num [pickMax, pickStep]
    cases patternWAN with
    | none =>
        have hS : hybridScores (some wr) (some wt) none patternRunning =
            [(wr.name, 0.95), (wt.name, 0.70)] := by
          simp only [hybridScores]
          exact hs2
        have hM : hybridIfaces (some wr) (some wt) none =
            [(wr.name, wr), (wt.name, wt)] := by
          simp only [hybridIfaces]
          exact hm2
        simp only [detectByHybrid, hS, hM, hpick2]
        rw [lookupIface_head]
        norm_num [DetectionMethodRoute]
    | some wp =>
        cases patternRunning with
        | false =>
            have hS : hybridScores (some wr) (some wt) (some wp) false =
                [(wr.name, 0.95), (wt.name, 0.70)] := by
              simp only [hybridScores, Bool.false_eq_true, if_false]
              exact hs2
            have hM : hybridIfaces (some wr) (some wt) (some wp) =
                ifaceAdd [(wr.name, wr), (wt.name, wt)] wp.name wp := by
              simp only [hybridIfaces]
              rw [hm2]
            simp only [detectByHybrid, hS, hM, hpick2]
            rw [lookupIface_ifaceAdd_head]
            norm_num [DetectionMethodRoute]
        | true =>
            obtain ⟨hpwr, hpwt⟩ := hp wp rfl rfl
            have h1 : (wr.name == wp.name) = false := by
              simpa using fun hc => hpwr hc.symm
            have h2 : (wt.name == wp.name) = false := by
              simpa using fun hc => hpwt hc.symm
            have hs3 : scoreAdd [(wr.name, (0.95 : ℚ)), (wt.name, 0.70)]
                wp.name 0.50 =
                [(wr.name, 0.95), (wt.name, 0.70), (wp.name, 0.50)] := by
              simp [scoreAdd, h1, h2]
            have hS : hybridScores (some wr) (some wt) (some wp) true =
                [(wr.name, 0.95), (wt.name, 0.70), (wp.name, 0.50)] := by
              simp only [hybridScores, if_true]
              rw [hs2, hs3]
            have hM : hybridIfaces (some wr) (some wt) (some wp) =
                ifaceAdd [(wr.name, wr), (wt.name, wt)] wp.name wp := by
              simp only [hybridIfaces]
              rw [hm2]
            have hpick3 : pickMax
                [(wr.name, 0.95), (wt.name, 0.70), (wp.name, 0.50)] =
                (some wr.name, 0.95) := by
              norm_num [pickMax, pickStep]
            simp only [detectByHybrid, hS, hM, hpick3]
            rw [lookupIface_ifaceAdd_head]
            norm_num [DetectionMethodRoute]

/-- Witness for `wan_hybrid_decision`: route votes ether1, traffic votes
ether2, pattern votes nothing. -/
theorem wan_hybrid_decision_witness :
    detectByHybrid (some routeCand) (some trafficCand) none true =
      (some routeCand, DetectionMethodRoute, 0.95) :=
  (wan_hybrid_decision (some routeCand) (some trafficCand) none true
    routeCand trafficCand rfl rfl (by decide)
    (fun wp hwp => by cases hwp)).2.2.2

/-- Witness for `offline_tick` on a one-row store. -/
theorem offline_tick_witness :
    (collectData ⟨[sampleRow], [], []⟩ none (fun _ => none)
      7 5 1 2026).resetLogs = [] :=
  (offline_tick ⟨[sampleRow], [], []⟩ (fun _ => none) 7 5 1 2026
    (by simp [sampleRow])).2.1

/-- Witness for `monthly_quota_invariants` at a concrete row and input. -/
theorem monthly_quota_invariants_witness :
    QuotaInv sampleQuotaRow ∧
      QuotaInv (updateQuotaRow sampleQuotaRow 250 90 false) := by
  have h0 : QuotaInv sampleQuotaRow := ⟨by decide, by decide, by decide⟩
  exact ⟨h0,
    (monthly_quota_invariants sampleIface 5 1 2026 sampleQuotaRow
      250 90 false h0).2.1⟩

/-- C6 counterexample: with the router session unavailable the returned
decision carries `isp_name = "error"`, not `"unknown"` as the claim states.
-/
theorem wan_graceful_failure_counterexample :
    DetectWANInterface false none (fun _ => "unknown") 0 =
      Except.ok ⟨"none", "error", 0, 0, 0, "error"⟩ ∧
      ("error" : String) ≠ "unknown" :=
  ⟨rfl, by decide⟩

/-- C6 (amended): whenever the router session is unavailable the detector
does not panic (the model is a total function) and does not return an
error: it returns `name = "none"`, `method = "error"`, `confidence = 0.0`
and `isp_name = "error"`; when the session is up but no method produces a
candidate it returns `name = "none"`, `method = "not_found"`,
`confidence = 0.0`, `isp_name = "unknown"`; and no input at all makes it
return a non-nil Go error. -/
theorem wan_graceful_failure (best : Option (WANInterface × String × ℚ))
    (isp : String → String) (now : Nat) :
    DetectWANInterface false best isp now = Except.ok (errorWAN now) ∧
    (errorWAN now).name = "none" ∧ (errorWAN now).method = "error" ∧
    (errorWAN now).confidence = 0 ∧ (errorWAN now).ispName = "error" ∧
    DetectWANInterface true none isp now = Except.ok (notFoundWAN now) ∧
    (notFoundWAN now).name = "none" ∧
    (notFoundWAN now).method = "not_found" ∧
    (notFoundWAN now).confidence = 0 ∧
    (notFoundWAN now).ispName = "unknown" ∧
    ∀ (su : Bool) (b : Option (WANInterface × String × ℚ)),
      ∃ w, DetectWANInterface su b isp now = Except.ok w := by
  refine ⟨rfl, rfl, rfl, rfl, rfl, rfl, rfl, rfl, rfl, rfl, ?_⟩
  intro su b
  cases su with
  | false => exact ⟨errorWAN now, rfl⟩
  | true =>
      cases b with
      | none => exact ⟨notFoundWAN now, rfl⟩
      | some bwc => exact ⟨_, rfl⟩

theorem recordFailures_open (cfg : CircuitBreakerConfig) (ts : List Nat) :
    ∀ cb : CircuitBreaker, cb.state = CircuitState.Open →
      cfg.failureThreshold ≤ cb.failureCount →
      (recordFailures cfg cb ts).state = CircuitState.Open ∧
        (recordFailures cfg cb ts).failureCount =
          cb.failureCount + ts.length := by
  induction ts with
  | nil => intro cb hst hfc; exact ⟨hst, rfl⟩
  | cons t rest ih =>
      intro cb hst hfc
      have hle : cfg.failureThreshold ≤ cb.failureCount + 1 :=
        le_trans hfc (Nat.le_succ _)
      have hstep : RecordFailure cfg cb t =
          { cb with state := CircuitState.Open,
                    failureCount := cb.failureCount + 1,
                    lastFailure := t } := by
        unfold RecordFailure
        rw [if_pos hle]
      have hfold : recordFailures cfg cb (t :: rest) =
          recordFailures cfg (RecordFailure cfg cb t) rest := rfl
      obtain ⟨h1, h2⟩ := ih (RecordFailure cfg cb t)
        (by rw [hstep]) (by rw [hstep]; exact hle)
      constructor
      · rw [hfold]
        exact h1
      · rw [hfold, h2, hstep]
        simp
        omega

theorem recordFailures_closed (cfg : CircuitBreakerConfig) (ts : List Nat) :
    ∀ cb : CircuitBreaker, cb.state = CircuitState.Closed →
      cb.failureCount < cfg.failureThreshold →
      (recordFailures cfg cb ts).state =
        (if cfg.failureThreshold ≤ cb.failureCount + ts.length then
          CircuitState.Open
        else CircuitState.Closed) ∧
      (recordFailures cfg cb ts).failureCount =
        cb.failureCount + ts.length := by
  induction ts with
  | nil =>
      intro cb hst hfc
      rw [if_neg (by simp only [List.length_nil, Nat.add_zero]; omega)]
      exact ⟨hst, rfl⟩
  | cons t rest ih =>
      intro cb hst hfc
      by_cases hcross : cfg.failureThreshold ≤ cb.failureCount + 1
      · have hstep : RecordFailure cfg cb t =
            { cb with state := CircuitState.Open,
                      failureCount := cb.failureCount + 1,
                      lastFailure := t } := by
          unfold RecordFailure
          rw [if_pos hcross]
        obtain ⟨h1, h2⟩ := recordFailures_open cfg rest
          (RecordFailure cfg cb t) (by rw [hstep]) (by rw [hstep]; exact hcross)
        constructor
        · rw [show recordFailures cfg cb (t :: rest) =
            recordFailures cfg (RecordFailure cfg cb t) rest from rfl, h1,
            if_pos (by simp only [List.length_cons]; omega)]
        · rw [show recordFailures cfg cb (t :: rest) =
            recordFailures cfg (RecordFailure cfg cb t) rest from rfl, h2,
            hstep]
          simp
          omega
      · have hstep : RecordFailure cfg cb t =
            { cb with failureCount := cb.failureCount + 1,
                      lastFailure := t } := by
          unfold RecordFailure
          rw [if_neg hcross]
        have hfc2 : (RecordFailure cfg cb t).failureCount =
            cb.failureCount + 1 := by rw [hstep]
        obtain ⟨h1, h2⟩ := ih (RecordFailure cfg cb t)
          (by rw [hstep]; exact hst) (by rw [hfc2]; omega)
        constructor
        · rw [show recordFailures cfg cb (t :: rest) =
            recordFailures cfg (RecordFailure cfg cb t) rest from rfl, h1,
            hfc2]
          simp only [List.length_cons]
          have harith : cb.failureCount + 1 + rest.length =
              cb.failureCount + (rest.length + 1) := by omega
          rw [harith]
        · rw [show recordFailures cfg cb (t :: rest) =
            recordFailures cfg (RecordFailure cfg cb t) rest from rfl, h2,
            hfc2]
          simp only [List.length_cons]
          omega

/-- C7 counterexample: with the default configuration, drive the breaker
Open with five failures, let the supervisor move it to HalfOpen after the
timeout, record one success (which zeroes the failure counter), then one
failure: the breaker stays HalfOpen instead of returning to Open. -/
theorem circuit_breaker_counterexample :
    (RecordFailure defaultCBConfig
      (RecordSuccess
        (checkState defaultCBConfig
          (recordFailures defaultCBConfig NewCircuitBreaker [0, 0, 0, 0, 0])
          100))
      101).state = CircuitState.HalfOpen := by decide

/-- C7 (amended): the breaker opens exactly when the consecutive-failure
count from a fresh Closed state reaches `failure_threshold`; Open rejects
all work; the supervisor moves Open to HalfOpen (zeroing the success
counter) exactly when more than `recovery_timeout` has elapsed since the
last failure; `half_open_max_calls` successes let the supervisor close the
breaker and zero the failure counter; but a failure in HalfOpen reopens the
breaker only when the accumulated failure count reaches the threshold
again — since a success in HalfOpen zeroes that counter, a single failure
after a half-open success leaves the breaker in HalfOpen (see the
counterexample); before any success the count carried over from Open is
still at the threshold, so the first failure does reopen. -/
theorem circuit_breaker_cycle (cfg : CircuitBreakerConfig)
    (cb : CircuitBreaker) (now : Nat) (ts : List Nat)
    (hthr : 1 ≤ cfg.failureThreshold) :
    ((recordFailures cfg ⟨CircuitState.Closed, 0, cb.successCount,
        cb.lastFailure⟩ ts).state =
      if cfg.failureThreshold ≤ ts.length then CircuitState.Open
      else CircuitState.Closed) ∧
    (Allow cb = false ↔ cb.state = CircuitState.Open) ∧
    (cb.state = CircuitState.Open →
      (now - cb.lastFailure ≤ cfg.recoveryTimeout →
        checkState cfg cb now = cb) ∧
      (cfg.recoveryTimeout < now - cb.lastFailure →
        checkState cfg cb now =
          { cb with state := CircuitState.HalfOpen, successCount := 0 })) ∧
    (cb.state = CircuitState.HalfOpen →
      cfg.halfOpenMaxCalls ≤ cb.successCount →
      checkState cfg cb now =
        { cb with state := CircuitState.Closed, failureCount := 0 }) ∧
    (cb.state = CircuitState.HalfOpen →
      ((RecordFailure cfg cb now).state = CircuitState.Open ↔
        cfg.failureThreshold ≤ cb.failureCount + 1)) ∧
    (cb.state = CircuitState.HalfOpen →
      RecordSuccess cb =
        { cb with successCount := cb.successCount + 1,
                  failureCount := 0 }) := by
  refine ⟨?_, ?_, ?_, ?_, ?_, ?_⟩
  · have h := recordFailures_closed cfg ts
      ⟨CircuitState.Closed, 0, cb.successCount, cb.lastFailure⟩ rfl
      (by simpa using hthr)
    simpa using h.1
  · unfold Allow
    cases h : cb.state <;> simp [h]
  · intro hst
    constructor
    · intro hle
      unfold checkState
      rw [hst]
      rw [if_neg (by omega)]
    · intro hlt
      unfold checkState
      rw [hst]
      rw [if_pos (by omega)]
  · intro hst hsc
    unfold checkState
    rw [hst]
    rw [if_pos hsc]
  · intro hst
    unfold RecordFailure
    by_cases h : cfg.failureThreshold ≤ cb.failureCount + 1
    · rw [if_pos h]
      simp [h]
    · rw [if_neg h]
      simp [hst, h]
  · intro hst
    unfold RecordSuccess
    rw [if_pos hst]

/-- Witness for `circuit_breaker_cycle` at the default configuration and a
breaker that is Open with five recorded failures. -/
theorem circuit_breaker_cycle_witness :
    1 ≤ defaultCBConfig.failureThreshold ∧
      (Allow ⟨CircuitState.Open, 5, 0, 0⟩ = false ↔
        (⟨CircuitState.Open, 5, 0, 0⟩ : CircuitBreaker).state =
          CircuitState.Open) :=
  ⟨by decide,
    (circuit_breaker_cycle defaultCBConfig ⟨CircuitState.Open, 5, 0, 0⟩ 0 []
      (by decide)).2.1⟩

/-- C8: the monthly-usage accessor passes the string literal `"quotas"`
instead of `&quotas` to `Find`, so on a store that holds a matching day row
the call returns an empty slice plus an error, while the specified behavior
returns exactly that row ordered by day. -/
theorem get_monthly_quota_literal_bug :
    (GetMonthlyQuota [sampleQuotaRow] "xether2" 1 2026).1 = [] ∧
    (GetMonthlyQuota [sampleQuotaRow] "xether2" 1 2026).2.isSome = true ∧
    getMonthlyQuotaSpec [sampleQuotaRow] "xether2" 1 2026 =
      [sampleQuotaRow] := by
  refine ⟨rfl, rfl, ?_⟩
  decide

/-- C9: `GetInterfaces` acquires `s.mu` and then calls `connect`, which
acquires the same non-reentrant `s.mu` again, so the very first call blocks
forever against itself with no concurrency involved; `connect` run on its
own balances its lock. -/
theorem router_client_self_deadlock :
    runLockTrace getInterfacesLockTrace 0 = none ∧
      runLockTrace connectLockTrace 0 = some 0 := by decide

/-- C3: tick-level reset-log exactness fails on the code because the
online per-interface write self-deadlocks: `saveInterfaceData` holds
`dbMutex` while `updateMonthlyQuota` re-acquires the same non-reentrant
mutex, so the first sample blocks the tick (first conjunct; the updater
entered lock-free, as on the offline path, balances its lock — second
conjunct).  At a tick observing two regressed interfaces, the observable
state carries the `sudden_drop` entry of the first interface, written
before the block, and no entry at all for the second interface, although
its counters regressed below the stored row (last two conjuncts), so a
regressed interface gets no CounterResetLog entry on the tick where the
claim demands exactly one. -/
theorem counter_reset_tick_deadlock :
    runLockTrace saveInterfaceDataLockTrace 0 = none ∧
    runLockTrace updateMonthlyQuotaLockTrace 0 = some 0 ∧
    (collectOnlineObservable
        ⟨[⟨"xether1", 1000, 500, 0, 0, 9⟩,
          ⟨"xether2", 2000, 900, 0, 0, 9⟩], [], []⟩
        [⟨"xether1", 50, 10, 0, 0, "true", ""⟩,
          ⟨"xether2", 100, 20, 0, 0, "true", ""⟩]
        (fun _ => none) 10).resetLogs =
      [⟨"xether1", 10, 1500, 60, "sudden_drop"⟩] ∧
    (100 : Nat) < 2000 ∧ (20 : Nat) < 900 := by
  refine ⟨by decide, by decide, by decide, by decide, by decide⟩

theorem subAddOne_lookup_self (subs : List (String × List String))
    (i c : String) :
    ∃ s, subLookup (subAddOne subs i c) i = some s ∧ c ∈ s := by
  unfold subAddOne
  by_cases hany : subs.any (fun p => p.1 == i)
  · rw [if_pos hany]
    unfold subLookup
    rw [find?_map_comm _ _ _
      (fun p => by by_cases h : p.1 == i <;> simp [h])]
    have hsome : (subs.find? (fun p => p.1 == i)).isSome := by
      rw [List.find?_isSome]
      rw [List.any_eq_true] at hany
      exact hany
    cases hfind : subs.find? (fun p => p.1 == i) with
    | none => rw [hfind] at hsome; simp at hsome
    | some p0 =>
        have hp0 : (p0.1 == i) = true :=
          @List.find?_some _ (fun p => p.1 == i) p0 subs hfind
        have hp0e : p0.1 = i := by simpa using hp0
        refine ⟨if p0.2.contains c then p0.2 else p0.2 ++ [c], ?_, ?_⟩
        · simp [hp0e]
        · by_cases hc : p0.2.contains c
          · rw [if_pos hc]
            simpa using hc
          · rw [if_neg hc]
            exact List.mem_append_right _ (List.mem_singleton.mpr rfl)
  · rw [if_neg hany]
    unfold subLookup
    rw [List.find?_append]
    have hnone : subs.find? (fun p => p.1 == i) = none := by
      rw [List.find?_eq_none]
      intro x hx
      rw [List.any_eq_true] at hany
      exact fun hc => hany ⟨x, hx, hc⟩
    rw [hnone]
    refine ⟨[c], ?_, List.mem_singleton.mpr rfl⟩
    simp [List.find?]

theorem subAddOne_lookup_mono (subs : List (String × List String))
    (j c i : String) (s : List String)
    (h : subLookup subs i = some s) :
    ∃ s2, subLookup (subAddOne subs j c) i = some s2 ∧
      ∀ x ∈ s, x ∈ s2 := by
  unfold subAddOne
  by_cases hany : subs.any (fun p => p.1 == j)
  · rw [if_pos hany]
    unfold subLookup at h ⊢
    rw [find?_map_comm _ _ _
      (fun p => by by_cases hx : p.1 == j <;> simp [hx])]
    cases hfind : subs.find? (fun p => p.1 == i) with
    | none => rw [hfind] at h; simp at h
    | some p0 =>
        rw [hfind] at h
        have hs : p0.2 = s := by simpa using h
        by_cases hj : p0.1 == j
        · have hje : p0.1 = j := by simpa using hj
          refine ⟨if p0.2.contains c then p0.2 else p0.2 ++ [c],
            by simp [hje], ?_⟩
          intro x hx
          rw [← hs] at hx
          by_cases hc : p0.2.contains c
          · rw [if_pos hc]
            exact hx
          · rw [if_neg hc]
            exact List.mem_append_left _ hx
        · have hje : ¬p0.1 = j := by simpa using hj
          exact ⟨s, by simp [hje, hs], fun x hx => hx⟩
  · rw [if_neg hany]
    unfold subLookup at h ⊢
    rw [List.find?_append]
    cases hfind : subs.find? (fun p => p.1 == i) with
    | none => rw [hfind] at h; simp at h
    | some p0 =>
        rw [hfind] at h
        refine ⟨s, ?_, fun x hx => hx⟩
        simpa using h

theorem subFold_mem_preserve (ifaces : List String) (c i : String) :
    ∀ subs, (∃ s, subLookup subs i = some s ∧ c ∈ s) →
      ∃ s, subLookup (ifaces.foldl (fun a j => subAddOne a j c) subs) i =
        some s ∧ c ∈ s := by
  induction ifaces with
  | nil => intro subs h; exact h
  | cons j rest ih =>
      intro subs h
      obtain ⟨s, hs, hc⟩ := h
      obtain ⟨s2, hs2, hsub⟩ := subAddOne_lookup_mono subs j c i s hs
      exact ih (subAddOne subs j c) ⟨s2, hs2, hsub c hc⟩

theorem subscribeClient_mem (st : HubState) (c : String)
    (ifaces : List String) :
    ∀ i ∈ ifaces, ∃ s,
      subLookup (subscribeClient st c ifaces).subscriptions i = some s ∧
        c ∈ s := by
  suffices h : ∀ subs, ∀ i ∈ ifaces, ∃ s,
      subLookup (ifaces.foldl (fun a j => subAddOne a j c) subs) i =
        some s ∧ c ∈ s from h st.subscriptions
  induction ifaces with
  | nil => intro subs i hi; cases hi
  | cons j rest ih =>
      intro subs i hi
      rcases List.mem_cons.mp hi with rfl | hi2
      · exact subFold_mem_preserve rest c i (subAddOne subs i c)
          (subAddOne_lookup_self subs i c)
      · exact ih (subAddOne subs j c) i hi2

theorem subRemoveOne_drops (subs : List (String × List String))
    (j c i : String)
    (h : ∀ p ∈ subs, p.1 = i → (c ∈ p.2 → i = j)) :
    ∀ p ∈ subRemoveOne subs j c, p.1 = i → c ∉ p.2 := by
  intro p hp hpi
  rw [subRemoveOne, List.mem_filterMap] at hp
  obtain ⟨a, ha, hfa⟩ := hp
  by_cases haj : a.1 == j
  · rw [if_pos haj] at hfa
    dsimp only at hfa
    by_cases he : (a.2.filter (fun x => x != c)).isEmpty
    · rw [if_pos he] at hfa
      cases hfa
    · rw [if_neg he] at hfa
      obtain rfl := Option.some.inj hfa
      intro hm
      rw [List.mem_filter] at hm
      simp at hm
  · rw [if_neg haj] at hfa
    obtain rfl := Option.some.inj hfa
    intro hm
    exact absurd (h a ha hpi hm) (by simpa [hpi] using haj)

theorem subRemoveOne_preserve (subs : List (String × List String))
    (j c i : String)
    (h : ∀ p ∈ subs, p.1 = i → c ∉ p.2) :
    ∀ p ∈ subRemoveOne subs j c, p.1 = i → c ∉ p.2 := by
  intro p hp hpi
  rw [subRemoveOne, List.mem_filterMap] at hp
  obtain ⟨a, ha, hfa⟩ := hp
  by_cases haj : a.1 == j
  · rw [if_pos haj] at hfa
    dsimp only at hfa
    by_cases he : (a.2.filter (fun x => x != c)).isEmpty
    · rw [if_pos he] at hfa
      cases hfa
    · rw [if_neg he] at hfa
      obtain rfl := Option.some.inj hfa
      intro hm
      rw [List.mem_filter] at hm
      simp at hm
  · rw [if_neg haj] at hfa
    obtain rfl := Option.some.inj hfa
    exact h a ha hpi

theorem subRemoveFold_preserve (ifaces : List String) (c i : String) :
    ∀ subs, (∀ p ∈ subs, p.1 = i → c ∉ p.2) →
      ∀ p ∈ ifaces.foldl (fun a j => subRemoveOne a j c) subs,
        p.1 = i → c ∉ p.2 := by
  induction ifaces with
  | nil => intro subs h; exact h
  | cons j rest ih =>
      intro subs h
      exact ih (subRemoveOne subs j c) (subRemoveOne_preserve subs j c i h)

theorem unsubscribeClient_not_mem (st : HubState) (c : String)
    (ifaces : List String) :
    ∀ i ∈ ifaces, ∀ p ∈ (unsubscribeClient st c ifaces).subscriptions,
      p.1 = i → c ∉ p.2 := by
  suffices h : ∀ subs, ∀ i ∈ ifaces,
      ∀ p ∈ ifaces.foldl (fun a j => subRemoveOne a j c) subs,
        p.1 = i → c ∉ p.2 from h st.subscriptions
  induction ifaces with
  | nil => intro subs i hi; cases hi
  | cons j rest ih =>
      intro subs i hi
      rcases List.mem_cons.mp hi with rfl | hi2
      · exact subRemoveFold_preserve rest c i (subRemoveOne subs i c)
          (subRemoveOne_drops subs i c i (fun p _ _ _ => rfl))
      · exact ih (subRemoveOne subs j c) i hi2

theorem unregisterClient_scrubs (st : HubState) (c : String) :
    (∀ p ∈ (unregisterClient st c).subscriptions, c ∉ p.2) ∧
      c ∉ (unregisterClient st c).clients := by
  constructor
  · intro p hp
    simp only [unregisterClient] at hp
    rw [List.mem_filterMap] at hp
    obtain ⟨a, ha, hfa⟩ := hp
    by_cases hc : a.2.contains c
    · rw [if_pos hc] at hfa
      by_cases he : (a.2.filter (fun x => x != c)).isEmpty
      · rw [if_pos he] at hfa
        cases hfa
      · rw [if_neg he] at hfa
        obtain rfl := Option.some.inj hfa
        intro hm
        rw [List.mem_filter] at hm
        simp at hm
    · rw [if_neg hc] at hfa
      obtain rfl := Option.some.inj hfa
      simp at hc
      exact hc
  · intro hm
    simp only [unregisterClient] at hm
    rw [List.mem_filter] at hm
    simp at hm

theorem subAddOne_clean (subs : List (String × List String)) (j c : String)
    (h : ∀ p ∈ subs, p.2 ≠ []) :
    ∀ p ∈ subAddOne subs j c, p.2 ≠ [] := by
  intro p hp
  unfold subAddOne at hp
  by_cases hany : subs.any (fun q => q.1 == j)
  · rw [if_pos hany] at hp
    rw [List.mem_map] at hp
    obtain ⟨a, ha, rfl⟩ := hp
    by_cases haj : a.1 == j
    · rw [if_pos haj]
      dsimp only
      by_cases hc : a.2.contains c
      · rw [if_pos hc]
        exact h a ha
      · rw [if_neg hc]
        simp
    · rw [if_neg haj]
      exact h a ha
  · rw [if_neg hany] at hp
    rcases List.mem_append.mp hp with hin | hnew
    · exact h p hin
    · rw [List.mem_singleton] at hnew
      subst hnew
      simp

theorem subAddFold_clean (ifaces : List String) (c : String) :
    ∀ subs, (∀ p ∈ subs, p.2 ≠ []) →
      ∀ p ∈ ifaces.foldl (fun a j => subAddOne a j c) subs, p.2 ≠ [] := by
  induction ifaces with
  | nil => intro subs h; exact h
  | cons j rest ih =>
      intro subs h
      exact ih (subAddOne subs j c) (subAddOne_clean subs j c h)

theorem subRemoveOne_clean (subs : List (String × List String))
    (j c : String) (h : ∀ p ∈ subs, p.2 ≠ []) :
    ∀ p ∈ subRemoveOne subs j c, p.2 ≠ [] := by
  intro p hp
  rw [subRemoveOne, List.mem_filterMap] at hp
  obtain ⟨a, ha, hfa⟩ := hp
  by_cases haj : a.1 == j
  · rw [if_pos haj] at hfa
    dsimp only at hfa
    by_cases he : (a.2.filter (fun x => x != c)).isEmpty
    · rw [if_pos he] at hfa
      cases hfa
    · rw [if_neg he] at hfa
      obtain rfl := Option.some.inj hfa
      simpa using he
  · rw [if_neg haj] at hfa
    obtain rfl := Option.some.inj hfa
    exact h a ha

theorem subRemoveFold_clean (ifaces : List String) (c : String) :
    ∀ subs, (∀ p ∈ subs, p.2 ≠ []) →
      ∀ p ∈ ifaces.foldl (fun a j => subRemoveOne a j c) subs,
        p.2 ≠ [] := by
  induction ifaces with
  | nil => intro subs h; exact h
  | cons j rest ih =>
      intro subs h
      exact ih (subRemoveOne subs j c) (subRemoveOne_clean subs j c h)

theorem unregisterClient_clean (st : HubState) (c : String)
    (h : ∀ p ∈ st.subscriptions, p.2 ≠ []) :
    ∀ p ∈ (unregisterClient st c).subscriptions, p.2 ≠ [] := by
  intro p hp
  simp only [unregisterClient] at hp
  rw [List.mem_filterMap] at hp
  obtain ⟨a, ha, hfa⟩ := hp
  by_cases hc : a.2.contains c
  · rw [if_pos hc] at hfa
    by_cases he : (a.2.filter (fun x => x != c)).isEmpty
    · rw [if_pos he] at hfa
      cases hfa
    · rw [if_neg he] at hfa
      obtain rfl := Option.some.inj hfa
      simpa using he
  · rw [if_neg hc] at hfa
    obtain rfl := Option.some.inj hfa
    exact h a ha

/-- C10: the subscription table of the hub stays clean: after `subscribeClient`
the client is in the set of every interface it subscribed to; after
`unsubscribeClient` it is absent from the sets of the named interfaces;
after `unregisterClient` the client appears in no subscriber set and not in
the client table; and each of the three operations preserves the invariant
that every interface key present in the map has a non-empty subscriber
set. -/
theorem hub_subscription_hygiene (st : HubState) (c : String)
    (ifaces : List String) (hclean : HubClean st) :
    (∀ i ∈ ifaces, ∃ s,
      subLookup (subscribeClient st c ifaces).subscriptions i = some s ∧
        c ∈ s) ∧
    (∀ i ∈ ifaces, ∀ p ∈ (unsubscribeClient st c ifaces).subscriptions,
      p.1 = i → c ∉ p.2) ∧
    (∀ p ∈ (unregisterClient st c).subscriptions, c ∉ p.2) ∧
    c ∉ (unregisterClient st c).clients ∧
    HubClean (subscribeClient st c ifaces) ∧
    HubClean (unsubscribeClient st c ifaces) ∧
    HubClean (unregisterClient st c) := by
  refine ⟨subscribeClient_mem st c ifaces,
    unsubscribeClient_not_mem st c ifaces,
    (unregisterClient_scrubs st c).1,
    (unregisterClient_scrubs st c).2, ?_, ?_, ?_⟩
  · exact subAddFold_clean ifaces c st.subscriptions hclean
  · exact subRemoveFold_clean ifaces c st.subscriptions hclean
  · exact unregisterClient_clean st c hclean

/-- Witness for `hub_subscription_hygiene` on a one-client hub. -/
theorem hub_subscription_hygiene_witness :
    HubClean ⟨["c1"], [("xether2", ["c1"])]⟩ ∧
      "c1" ∉ (unregisterClient ⟨["c1"], [("xether2", ["c1"])]⟩
        "c1").clients := by
  have h0 : HubClean ⟨["c1"], [("xether2", ["c1"])]⟩ := by
    intro p hp
    rw [List.mem_singleton] at hp
    subst hp
    simp
  exact ⟨h0,
    (hub_subscription_hygiene ⟨["c1"], [("xether2", ["c1"])]⟩ "c1"
      ["xether2"] h0).2.2.2.1⟩

end Monik
